import Mathlib

/-!
# Verification of the RealTimeVideoCamBackend room registry and signaling relay

Shallow embedding of `src/api/services/videoService.ts`.

The service keeps two module-level maps:

* `activePeers  : Map<meetingId, Map<peerId, MeetingPeer>>`
* `socketToPeer : Map<socketId, { meetingId, peerId }>`

and wires Socket.IO handlers `join-video-room`, `leave-video-room`,
`disconnect`, and the WebRTC relays `webrtc-offer` / `webrtc-answer` /
`ice-candidate`.

JavaScript `Map`s are modelled as association lists with JS semantics:
`set` updates an existing key in place and appends a fresh key at the end,
`delete` removes the entry for the key, `get` returns an `Option`.
Socket.IO room membership is modelled explicitly: each connected socket is
implicitly a member of the room named by its own id, plus the rooms it
joined via `socket.join`.  `io.to(x).emit(...)` delivers to every connected
socket in room `x`; `socket.to(x)` additionally excludes the sender.

The Firestore meeting-existence check in the join handler is external to
the registry (the spec treats it as a collaborator resolved before Join);
the embedded `joinVideoRoom` models the handler from the point where that
check has passed or is disabled.
-/

namespace VideoService

/-- JS association map: get the value stored under key `k`. -/
def mapGet {V : Type} (k : String) : List (String × V) → Option V
  | [] => none
  | (k', v) :: t => if k' = k then some v else mapGet k t

/-- JS `Map.has`. -/
def mapHas {V : Type} (k : String) (l : List (String × V)) : Bool :=
  (mapGet k l).isSome

/-- JS `Map.set`: update the entry in place when the key is present,
append a new entry at the end otherwise. -/
def mapSet {V : Type} (k : String) (v : V) : List (String × V) → List (String × V)
  | [] => [(k, v)]
  | (k', v') :: t => if k' = k then (k, v) :: t else (k', v') :: mapSet k v t

/-- JS `Map.delete`: remove the entry stored under `k`. -/
def mapDelete {V : Type} (k : String) (l : List (String × V)) : List (String × V) :=
  l.filter (fun e => e.1 ≠ k)

/-- `MeetingPeer` record from videoService.ts. -/
structure MeetingPeer where
  peerId : String
  socketId : String
  userId : String
  displayName : String
deriving Repr, DecidableEq

/-- Peer-to-meeting maps: `Map<peerId, MeetingPeer>`. -/
abbrev PeerMap := List (String × MeetingPeer)

/-- The `room-participants` payload entries (note the source field name
`odiserId`, which carries the peer id). -/
structure RoomParticipant where
  socketId : String
  odiserId : String
  userId : String
  displayName : String
deriving Repr, DecidableEq

/-- Event payloads emitted by the service, one constructor per
`emit(event, payload)` shape appearing in videoService.ts.  The opaque
`offer` / `answer` / `candidate` bodies are modelled as strings. -/
inductive Payload where
  | videoError (msg : String)
  | peerJoined (peerId : String)
  | videoJoined (peers : List String) (meetingId : String)
  | roomParticipants (participants : List RoomParticipant)
  | participantJoined (p : RoomParticipant)
  | peerDisconnected (peerId : String)
  | forceDisconnect
  | webrtcOffer (senderSocketId : String) (offer : String)
  | webrtcAnswer (senderSocketId : String) (answer : String)
  | iceCandidate (senderSocketId : String) (candidate : String)
  | mediaStateChanged (socketId : String) (isVideoEnabled : Bool)
deriving Repr, DecidableEq

/-- An emission: `direct` is `socket.emit(...)` to one socket,
`toRoom room ex p` is `io.to(room).emit(...)` (with `ex = none`) or
`socket.to(room).emit(...)` (with `ex = some sender`). -/
inductive Emit where
  | direct (target : String) (p : Payload)
  | toRoom (room : String) (ex : Option String) (p : Payload)
deriving Repr, DecidableEq

/-- The module-level state of the video service, together with the
transport-level facts delivery depends on: which sockets are connected
and which rooms each socket joined via `socket.join`. -/
structure VideoState where
  activePeers : List (String × PeerMap)
  socketToPeer : List (String × (String × String))
  rooms : List (String × String)
  connected : List String
deriving Repr, DecidableEq

/-- The empty initial state: both maps start as `new Map()`. -/
def initState : VideoState := ⟨[], [], [], []⟩

/-- Socket.IO membership of socket `s` in room `r`: every connected socket
is in the room named by its own id, plus its explicit joins. -/
def inRoom (st : VideoState) (s r : String) : Bool :=
  s = r || st.rooms.contains (s, r)

/-- Whether emission `e`, judged against state `st`, reaches socket `s`. -/
def delivers (st : VideoState) (e : Emit) (s : String) : Bool :=
  st.connected.contains s &&
    match e with
    | .direct t _ => s = t
    | .toRoom r ex _ => inRoom st s r && !(ex = some s : Bool)

/-- `userId.slice(-4)`: the last four characters (the whole string when
shorter). -/
def sliceLast4 (s : String) : String :=
  String.mk (s.data.drop (s.data.length - 4))

/-- `toUpperCase()` (ASCII, which is what `Char.toUpper` covers; the
claims only exercise ASCII identifiers). -/
def jsUpper (s : String) : String :=
  String.mk (s.data.map Char.toUpper)

/-- The whitespace characters `trim()` strips (the common ASCII ones; the
claims only exercise these). -/
def isJsWhitespace (c : Char) : Bool :=
  c = ' ' || c = '\t' || c = '\n' || c = '\r'

/-- JS `String.prototype.trim`: strip leading and trailing whitespace. -/
def jsTrim (s : String) : String :=
  String.mk (((s.data.dropWhile isJsWhitespace).reverse.dropWhile isJsWhitespace).reverse)

/-- `const fallbackTag = userId ? userId.slice(-4).toUpperCase() : 'INVIT'`.
A missing/empty `userId` is falsy in JS; both are modelled as `""`. -/
def fallbackTag (userId : String) : String :=
  if userId = "" then "INVIT" else jsUpper (sliceLast4 userId)

/-- `const safeDisplayName = (displayName || '').trim() || ` followed by
the template string `Participante ${fallbackTag}`. -/
def safeDisplayName (displayName userId : String) : String :=
  let t := jsTrim displayName
  if t = "" then "Participante " ++ fallbackTag userId else t

/-- The `join-video-room` handler (after the external Firestore check has
passed or is skipped): ensure the room exists, reject at size ≥ 10,
replace a duplicate `peerId`, `socket.join`, insert the participant,
overwrite the socket's reverse-index entry, and emit the four
notifications. -/
def joinVideoRoom (s meetingId peerId userId displayName : String)
    (st : VideoState) : VideoState × List Emit :=
  let ap := if mapHas meetingId st.activePeers then st.activePeers
            else mapSet meetingId [] st.activePeers
  let peers := (mapGet meetingId ap).getD []
  if 10 ≤ peers.length then
    ({ st with activePeers := ap },
     [.direct s (.videoError "Meeting full (maximum 10 users)")])
  else
    let peers1 := if mapHas peerId peers then mapDelete peerId peers else peers
    let rooms1 := if st.rooms.contains (s, meetingId) then st.rooms
                  else (s, meetingId) :: st.rooms
    let name := safeDisplayName displayName userId
    let newPeer : MeetingPeer := ⟨peerId, s, userId, name⟩
    let peers2 := mapSet peerId newPeer peers1
    let ap2 := mapSet meetingId peers2 ap
    let others := (peers2.map Prod.fst).filter (fun p => p ≠ peerId)
    let roster := (peers2.map Prod.snd).filter (fun p => p.peerId ≠ peerId)
    ({ st with
        activePeers := ap2
        socketToPeer := mapSet s (meetingId, peerId) st.socketToPeer
        rooms := rooms1 },
     [.toRoom meetingId (some s) (.peerJoined peerId),
      .direct s (.videoJoined others meetingId),
      .direct s (.roomParticipants
        (roster.map (fun p => ⟨p.socketId, p.peerId, p.userId, p.displayName⟩))),
      .toRoom meetingId (some s) (.participantJoined ⟨s, peerId, userId, name⟩)])

/-- The `leave-video-room` handler: `socket.leave(meetingId)`, remove the
peer if present (emitting `peer-disconnected` and dropping the room when
it empties), then unconditionally `socketToPeer.delete(socket.id)`. -/
def leaveVideoRoom (s meetingId peerId : String)
    (st : VideoState) : VideoState × List Emit :=
  let rooms1 := st.rooms.filter (fun e => e ≠ (s, meetingId))
  match mapGet meetingId st.activePeers with
  | none =>
      ({ st with rooms := rooms1, socketToPeer := mapDelete s st.socketToPeer }, [])
  | some peers =>
      if mapHas peerId peers then
        let peers2 := mapDelete peerId peers
        let ap := if peers2.length = 0 then mapDelete meetingId st.activePeers
                  else mapSet meetingId peers2 st.activePeers
        ({ st with
            activePeers := ap
            rooms := rooms1
            socketToPeer := mapDelete s st.socketToPeer },
         [.toRoom meetingId none (.peerDisconnected peerId)])
      else
        ({ st with rooms := rooms1, socketToPeer := mapDelete s st.socketToPeer }, [])

/-- The socket `disconnect` handler: the transport removes the socket from
all rooms and from the connected set; the handler then resolves the
reverse index and removes the matching participant, if any. -/
def disconnectSocket (s : String) (st : VideoState) : VideoState × List Emit :=
  let st0 := { st with
      connected := st.connected.filter (fun x => x ≠ s)
      rooms := st.rooms.filter (fun e => e.1 ≠ s) }
  match mapGet s st.socketToPeer with
  | none => (st0, [])
  | some (meetingId, peerId) =>
      match mapGet meetingId st0.activePeers with
      | none => ({ st0 with socketToPeer := mapDelete s st0.socketToPeer }, [])
      | some peers =>
          if mapHas peerId peers then
            let peers2 := mapDelete peerId peers
            let ap := if peers2.length = 0 then mapDelete meetingId st0.activePeers
                      else mapSet meetingId peers2 st0.activePeers
            ({ st0 with
                activePeers := ap
                socketToPeer := mapDelete s st0.socketToPeer },
             [.toRoom meetingId none (.peerDisconnected peerId)])
          else
            ({ st0 with socketToPeer := mapDelete s st0.socketToPeer }, [])

/-- The `webrtc-offer` handler: `io.to(targetSocketId).emit('webrtc-offer',
{ senderSocketId: socket.id, offer })`. -/
def webrtcOffer (s targetSocketId offer : String)
    (st : VideoState) : VideoState × List Emit :=
  (st, [.toRoom targetSocketId none (.webrtcOffer s offer)])

/-- The `webrtc-answer` handler. -/
def webrtcAnswer (s targetSocketId answer : String)
    (st : VideoState) : VideoState × List Emit :=
  (st, [.toRoom targetSocketId none (.webrtcAnswer s answer)])

/-- The `ice-candidate` handler. -/
def iceCandidate (s targetSocketId candidate : String)
    (st : VideoState) : VideoState × List Emit :=
  (st, [.toRoom targetSocketId none (.iceCandidate s candidate)])

/-- Registry operations a transport trace is made of. -/
inductive Op where
  | connect (s : String)
  | join (s meetingId peerId userId displayName : String)
  | leave (s meetingId peerId : String)
  | disconnect (s : String)
deriving Repr, DecidableEq

/-- Apply one operation.  Handlers only fire for connected sockets (a
disconnected socket cannot send messages), and `connect` introduces a
socket id not currently connected. -/
def applyOp (st : VideoState) : Op → VideoState
  | .connect s =>
      if st.connected.contains s then st
      else { st with connected := s :: st.connected }
  | .join s m p u d =>
      if st.connected.contains s then (joinVideoRoom s m p u d st).1 else st
  | .leave s m p =>
      if st.connected.contains s then (leaveVideoRoom s m p st).1 else st
  | .disconnect s =>
      if st.connected.contains s then (disconnectSocket s st).1 else st

/-- Run a trace of operations from the empty initial state. -/
def runOps (ops : List Op) : VideoState :=
  ops.foldl applyOp initState

/-- Key list of an association map. -/
def keys {V : Type} (l : List (String × V)) : List String := l.map Prod.fst

/-- Number of entries stored under key `k` (1 on well-formed maps when
present, 0 otherwise). -/
def countKey {V : Type} (k : String) (l : List (String × V)) : Nat :=
  (l.filter (fun e => e.1 = k)).length

/-- The participant map of room `m` (empty when the room is not
registered), i.e. `activePeers.get(m)` defaulted to an empty map. -/
def roomPeers (st : VideoState) (m : String) : PeerMap :=
  (mapGet m st.activePeers).getD []

/-- First half of the claimed consistency: every reverse-index entry
`socketId ↦ (meetingId, peerId)` names a live participant of that room
whose stored `socketId` is that socket. -/
def indexToPeer (st : VideoState) : Prop :=
  ∀ s m p, mapGet s st.socketToPeer = some (m, p) →
    ∃ q : MeetingPeer, mapGet p (roomPeers st m) = some q ∧ q.socketId = s

/-- Second half of the claimed consistency: every participant whose
socket is still connected has its (unique, since the index is a map keyed
by socket id) matching index entry. -/
def peerToIndexConn (st : VideoState) : Prop :=
  ∀ m peers p q, mapGet m st.activePeers = some peers → mapGet p peers = some q →
    st.connected.contains q.socketId = true →
    mapGet q.socketId st.socketToPeer = some (m, p)

/-- The mutual-consistency property of claim C1. -/
def consistent (st : VideoState) : Prop := indexToPeer st ∧ peerToIndexConn st

/-- Strengthening of `peerToIndexConn` used as the inductive invariant:
every participant (connected or not) has its matching index entry. -/
def peerToIndex (st : VideoState) : Prop :=
  ∀ m peers p q, mapGet m st.activePeers = some peers → mapGet p peers = some q →
    mapGet q.socketId st.socketToPeer = some (m, p)

/-- Inductive invariant implying `consistent`. -/
def strongConsistent (st : VideoState) : Prop := indexToPeer st ∧ peerToIndex st

/-- Well-matched operations: a join must come from a connection that is
unindexed or indexed exactly as `(meetingId, peerId)` and must not steal a
`peerId` held by a different connection; a leave must name exactly the
pair its connection is indexed under, or name an absent peer while its
connection is unindexed.  Connects and disconnects are unrestricted. -/
def okOpB (st : VideoState) : Op → Bool
  | .connect _ => true
  | .join s m p _ _ =>
      (match mapGet s st.socketToPeer with
       | none => true
       | some mp => mp = (m, p)) &&
      (match mapGet p (roomPeers st m) with
       | none => true
       | some q => q.socketId = s)
  | .leave s m p =>
      (match mapGet s st.socketToPeer with
       | some mp => mp = (m, p)
       | none => !mapHas p (roomPeers st m))
  | .disconnect _ => true

/-- A trace is well-matched when each of its operations is, in the state
it executes in. -/
def okTraceB (st : VideoState) : List Op → Bool
  | [] => true
  | op :: rest => okOpB st op && okTraceB (applyOp st op) rest

/-- A ten-participant room map, for exercising the capacity limit. -/
def tenPeers : PeerMap :=
  [("p0", ⟨"p0", "sx0", "u0", "N"⟩), ("p1", ⟨"p1", "sx1", "u1", "N"⟩),
   ("p2", ⟨"p2", "sx2", "u2", "N"⟩), ("p3", ⟨"p3", "sx3", "u3", "N"⟩),
   ("p4", ⟨"p4", "sx4", "u4", "N"⟩), ("p5", ⟨"p5", "sx5", "u5", "N"⟩),
   ("p6", ⟨"p6", "sx6", "u6", "N"⟩), ("p7", ⟨"p7", "sx7", "u7", "N"⟩),
   ("p8", ⟨"p8", "sx8", "u8", "N"⟩), ("p9", ⟨"p9", "sx9", "u9", "N"⟩)]

/-- A state whose room `m1` is at capacity. -/
def fullState : VideoState :=
  ⟨[("m1", tenPeers)],
   [("sx0", ("m1", "p0")), ("sx1", ("m1", "p1")), ("sx2", ("m1", "p2")),
    ("sx3", ("m1", "p3")), ("sx4", ("m1", "p4")), ("sx5", ("m1", "p5")),
    ("sx6", ("m1", "p6")), ("sx7", ("m1", "p7")), ("sx8", ("m1", "p8")),
    ("sx9", ("m1", "p9"))],
   [("sx0", "m1"), ("sx1", "m1"), ("sx2", "m1"), ("sx3", "m1"), ("sx4", "m1"),
    ("sx5", "m1"), ("sx6", "m1"), ("sx7", "m1"), ("sx8", "m1"), ("sx9", "m1")],
   ["s0", "sx0", "sx1", "sx2", "sx3", "sx4", "sx5", "sx6", "sx7", "sx8", "sx9"]⟩

/-- A two-participant room, used to exercise replacement and removal. -/
def pairState : VideoState :=
  ⟨[("m1", [("p1", ⟨"p1", "s1", "u1", "Ann"⟩), ("p2", ⟨"p2", "s2", "u2", "Bob"⟩)])],
   [("s1", ("m1", "p1")), ("s2", ("m1", "p2"))],
   [("s1", "m1"), ("s2", "m1")],
   ["s1", "s2"]⟩

/-- `pairState` with a different display name for the second participant;
only the roster data differs from `pairState`. -/
def pairStateAlt : VideoState :=
  ⟨[("m1", [("p1", ⟨"p1", "s1", "u1", "Ann"⟩), ("p2", ⟨"p2", "s2", "u2", "Bea"⟩)])],
   [("s1", ("m1", "p1")), ("s2", ("m1", "p2"))],
   [("s1", "m1"), ("s2", "m1")],
   ["s1", "s2"]⟩

/-- `pairState` with the first connection indexed under a different
peer id; only the sender's indexed peer id differs from `pairState`. -/
def pairStateIdx : VideoState :=
  ⟨[("m1", [("p1", ⟨"p1", "s1", "u1", "Ann"⟩), ("p2", ⟨"p2", "s2", "u2", "Bob"⟩)])],
   [("s1", ("m1", "pZ")), ("s2", ("m1", "p2"))],
   [("s1", "m1"), ("s2", "m1")],
   ["s1", "s2"]⟩

end VideoService


namespace VideoService

theorem mapGet_set_self {V : Type} (k : String) (v : V) (l : List (String × V)) :
    mapGet k (mapSet k v l) = some v := by
  induction l with
  | nil => simp [mapSet, mapGet]
  | cons e t ih =>
      obtain ⟨k', v'⟩ := e
      by_cases h : k' = k
      · subst h; simp [mapSet, mapGet]
      · simp [mapSet, mapGet, h, ih]

theorem mapGet_set_ne {V : Type} {j k : String} (hjk : j ≠ k) (v : V)
    (l : List (String × V)) : mapGet j (mapSet k v l) = mapGet j l := by
  have hkj : ¬ k = j := fun h => hjk h.symm
  induction l with
  | nil => simp [mapSet, mapGet, hkj]
  | cons e t ih =>
      obtain ⟨k', v'⟩ := e
      by_cases h : k' = k
      · subst h
        simp only [mapSet, if_pos rfl, mapGet, if_neg hkj]
      · by_cases h2 : k' = j
        · subst h2
          simp [mapSet, if_neg h, mapGet]
        · simp only [mapSet, if_neg h, mapGet, if_neg h2]
          exact ih

theorem mapGet_delete_self {V : Type} (k : String) (l : List (String × V)) :
    mapGet k (mapDelete k l) = none := by
  induction l with
  | nil => simp [mapDelete, mapGet]
  | cons e t ih =>
      obtain ⟨k', v'⟩ := e
      by_cases h : k' = k
      · subst h; simpa [mapDelete, mapGet] using ih
      · simp only [mapDelete, List.filter_cons] at ih ⊢
        simpa [h, mapGet] using ih

theorem mapGet_delete_ne {V : Type} {j k : String} (hjk : j ≠ k)
    (l : List (String × V)) : mapGet j (mapDelete k l) = mapGet j l := by
  induction l with
  | nil => simp [mapDelete, mapGet]
  | cons e t ih =>
      obtain ⟨k', v'⟩ := e
      by_cases h : k' = k
      · subst h
        have hkj : ¬ k' = j := fun h2 => hjk (h2.symm)
        simp only [mapDelete, List.filter_cons] at ih ⊢
        simpa [mapGet, hkj] using ih
      · by_cases h2 : k' = j
        · subst h2
          simp only [mapDelete, List.filter_cons] at ih ⊢
          simp [h, mapGet]
        · simp only [mapDelete, List.filter_cons] at ih ⊢
          simpa [h, h2, mapGet] using ih

theorem forall_ne_of_get_none {V : Type} {k : String} {l : List (String × V)}
    (h : mapGet k l = none) : ∀ e ∈ l, e.1 ≠ k := by
  induction l with
  | nil => simp
  | cons e t ih =>
      obtain ⟨k', v'⟩ := e
      by_cases hk : k' = k
      · subst hk; simp [mapGet] at h
      · intro e2 he2
        rcases List.mem_cons.mp he2 with h1 | h1
        · subst h1; exact hk
        · exact ih (by simpa [mapGet, hk] using h) e2 h1

theorem mapDelete_of_get_none {V : Type} {k : String} {l : List (String × V)}
    (h : mapGet k l = none) : mapDelete k l = l := by
  have hne := forall_ne_of_get_none h
  unfold mapDelete
  rw [List.filter_eq_self]
  intro e he
  simpa using hne e he

theorem mapSet_of_get_none {V : Type} {k : String} (v : V) {l : List (String × V)}
    (h : mapGet k l = none) : mapSet k v l = l ++ [(k, v)] := by
  induction l with
  | nil => simp [mapSet]
  | cons e t ih =>
      obtain ⟨k', v'⟩ := e
      by_cases hk : k' = k
      · subst hk; simp [mapGet] at h
      · simp [mapSet, hk, ih (by simpa [mapGet, hk] using h)]

theorem length_mapSet_present {V : Type} {k : String} {l : List (String × V)} {w : V}
    (h : mapGet k l = some w) (v : V) : (mapSet k v l).length = l.length := by
  induction l with
  | nil => simp [mapGet] at h
  | cons e t ih =>
      obtain ⟨k', v'⟩ := e
      by_cases hk : k' = k
      · subst hk; simp [mapSet]
      · simp only [mapGet, if_neg hk] at h
        simp [mapSet, hk, ih h]

theorem mapSet_ne_nil {V : Type} (k : String) (v : V) (l : List (String × V)) :
    mapSet k v l ≠ [] := by
  cases l with
  | nil => simp [mapSet]
  | cons e t =>
      obtain ⟨k', v'⟩ := e
      by_cases hk : k' = k <;> simp [mapSet, hk]

theorem mem_keys_of_get_some {V : Type} {k : String} {l : List (String × V)} {w : V}
    (h : mapGet k l = some w) : k ∈ keys l := by
  induction l with
  | nil => simp [mapGet] at h
  | cons e t ih =>
      obtain ⟨k', v'⟩ := e
      by_cases hk : k' = k
      · subst hk; simp [keys]
      · simp only [mapGet, if_neg hk] at h
        simp only [keys, List.map_cons, List.mem_cons]
        right
        simpa [keys] using ih h

theorem get_none_of_not_mem_keys {V : Type} {k : String} {l : List (String × V)}
    (h : k ∉ keys l) : mapGet k l = none := by
  cases hget : mapGet k l with
  | none => rfl
  | some w => exact absurd (mem_keys_of_get_some hget) h

theorem countKey_eq_zero_of_get_none {V : Type} {k : String} {l : List (String × V)}
    (h : mapGet k l = none) : countKey k l = 0 := by
  have hne := forall_ne_of_get_none h
  unfold countKey
  rw [List.length_eq_zero, List.filter_eq_nil_iff]
  intro e he
  simpa using hne e he

theorem countKey_append {V : Type} (k : String) (l₁ l₂ : List (String × V)) :
    countKey k (l₁ ++ l₂) = countKey k l₁ + countKey k l₂ := by
  simp [countKey, List.filter_append]

theorem length_mapDelete_of_nodup {V : Type} {k : String} {l : List (String × V)} {w : V}
    (hn : (keys l).Nodup) (h : mapGet k l = some w) :
    (mapDelete k l).length + 1 = l.length := by
  induction l with
  | nil => simp [mapGet] at h
  | cons e t ih =>
      obtain ⟨k', v'⟩ := e
      simp only [keys, List.map_cons, List.nodup_cons] at hn
      by_cases hk : k' = k
      · subst hk
        have hnone : mapGet k' t = none :=
          get_none_of_not_mem_keys (by simpa [keys] using hn.1)
        have hdel : mapDelete k' t = t := mapDelete_of_get_none hnone
        unfold mapDelete at hdel ⊢
        simp [List.filter_cons, hdel]
        exact fun a b hab => forall_ne_of_get_none hnone (a, b) hab
      · simp only [mapGet, if_neg hk] at h
        have ih2 := ih (by simpa [keys] using hn.2) h
        simp only [mapDelete, List.filter_cons] at ih2 ⊢
        simp only [hk, decide_eq_true_eq] at ih2 ⊢
        simp [hk] at ih2 ⊢
        omega

end VideoService

namespace VideoService

theorem get_none_of_has_false {V : Type} {k : String} {l : List (String × V)}
    (h : mapHas k l = false) : mapGet k l = none := by
  unfold mapHas at h
  cases hg : mapGet k l with
  | none => rfl
  | some v => rw [hg] at h; simp at h

theorem has_true_of_get_some {V : Type} {k : String} {l : List (String × V)} {v : V}
    (h : mapGet k l = some v) : mapHas k l = true := by
  simp [mapHas, h]

theorem join_ap_getD (st : VideoState) (m : String) :
    (mapGet m (if mapHas m st.activePeers then st.activePeers
               else mapSet m ([] : PeerMap) st.activePeers)).getD [] = roomPeers st m := by
  by_cases h : mapHas m st.activePeers
  · simp [h, roomPeers]
  · have hnone : mapGet m st.activePeers = none :=
      get_none_of_has_false (by simpa using h)
    simp [h, mapGet_set_self, roomPeers, hnone]

theorem joinVideoRoom_full (s m p u d : String) (st : VideoState)
    (h10 : 10 ≤ (roomPeers st m).length) :
    joinVideoRoom s m p u d st =
      (st, [.direct s (.videoError "Meeting full (maximum 10 users)")]) := by
  have hsome : mapHas m st.activePeers = true := by
    cases hg : mapGet m st.activePeers with
    | none =>
        exfalso
        rw [roomPeers, hg] at h10
        simp at h10
    | some peers => exact has_true_of_get_some hg
  have h10a : 10 ≤ ((mapGet m st.activePeers).getD []).length := h10
  unfold joinVideoRoom
  simp [hsome, h10a]

theorem join_state_of_lt (s m p u d : String) (st : VideoState)
    (h : (roomPeers st m).length < 10) :
    (joinVideoRoom s m p u d st).1 =
      { st with
          activePeers := mapSet m
            (mapSet p ⟨p, s, u, safeDisplayName d u⟩
              (if mapHas p (roomPeers st m) then mapDelete p (roomPeers st m)
               else roomPeers st m))
            (if mapHas m st.activePeers then st.activePeers
             else mapSet m [] st.activePeers)
          socketToPeer := mapSet s (m, p) st.socketToPeer
          rooms := if st.rooms.contains (s, m) then st.rooms
                   else (s, m) :: st.rooms } := by
  unfold joinVideoRoom
  simp only [join_ap_getD]
  rw [if_neg (Nat.not_le.mpr h)]

end VideoService

namespace VideoService

theorem roomPeers_join_self (s m p u d : String) (st : VideoState)
    (h : (roomPeers st m).length < 10) :
    roomPeers (joinVideoRoom s m p u d st).1 m =
      mapSet p ⟨p, s, u, safeDisplayName d u⟩
        (if mapHas p (roomPeers st m) then mapDelete p (roomPeers st m)
         else roomPeers st m) := by
  rw [roomPeers, join_state_of_lt s m p u d st h]
  simp [mapGet_set_self]

theorem get_activePeers_join_ne (s m p u d : String) (st : VideoState)
    (h : (roomPeers st m).length < 10) {m2 : String} (hne : m2 ≠ m) :
    mapGet m2 (joinVideoRoom s m p u d st).1.activePeers = mapGet m2 st.activePeers := by
  rw [join_state_of_lt s m p u d st h]
  simp only
  rw [mapGet_set_ne hne]
  by_cases hm : mapHas m st.activePeers
  · simp [hm]
  · simp [hm, mapGet_set_ne hne]

theorem socketToPeer_join (s m p u d : String) (st : VideoState)
    (h : (roomPeers st m).length < 10) :
    (joinVideoRoom s m p u d st).1.socketToPeer = mapSet s (m, p) st.socketToPeer := by
  rw [join_state_of_lt s m p u d st h]

theorem rooms_join (s m p u d : String) (st : VideoState)
    (h : (roomPeers st m).length < 10) :
    (joinVideoRoom s m p u d st).1.rooms =
      (if st.rooms.contains (s, m) then st.rooms else (s, m) :: st.rooms) := by
  rw [join_state_of_lt s m p u d st h]

theorem connected_join (s m p u d : String) (st : VideoState)
    (h : (roomPeers st m).length < 10) :
    (joinVideoRoom s m p u d st).1.connected = st.connected := by
  rw [join_state_of_lt s m p u d st h]

theorem leave_noroom (s m p : String) (st : VideoState)
    (hm : mapGet m st.activePeers = none) :
    leaveVideoRoom s m p st =
      ({ st with
          rooms := st.rooms.filter (fun e => e ≠ (s, m))
          socketToPeer := mapDelete s st.socketToPeer }, []) := by
  simp [leaveVideoRoom, hm]

theorem leave_nopeer (s m p : String) (st : VideoState) {peers : PeerMap}
    (hm : mapGet m st.activePeers = some peers) (hp : mapHas p peers = false) :
    leaveVideoRoom s m p st =
      ({ st with
          rooms := st.rooms.filter (fun e => e ≠ (s, m))
          socketToPeer := mapDelete s st.socketToPeer }, []) := by
  simp [leaveVideoRoom, hm, hp]

theorem leave_removes (s m p : String) (st : VideoState) {peers : PeerMap}
    (hm : mapGet m st.activePeers = some peers) (hp : mapHas p peers = true) :
    leaveVideoRoom s m p st =
      ({ st with
          activePeers := if (mapDelete p peers).length = 0 then mapDelete m st.activePeers
                         else mapSet m (mapDelete p peers) st.activePeers
          rooms := st.rooms.filter (fun e => e ≠ (s, m))
          socketToPeer := mapDelete s st.socketToPeer },
       [.toRoom m none (.peerDisconnected p)]) := by
  simp [leaveVideoRoom, hm, hp]

theorem disconnect_noindex (s : String) (st : VideoState)
    (hs : mapGet s st.socketToPeer = none) :
    disconnectSocket s st =
      ({ st with
          connected := st.connected.filter (fun x => x ≠ s)
          rooms := st.rooms.filter (fun e => e.1 ≠ s) }, []) := by
  simp [disconnectSocket, hs]

theorem disconnect_stale_noroom (s m p : String) (st : VideoState)
    (hs : mapGet s st.socketToPeer = some (m, p))
    (hm : mapGet m st.activePeers = none) :
    disconnectSocket s st =
      ({ st with
          connected := st.connected.filter (fun x => x ≠ s)
          rooms := st.rooms.filter (fun e => e.1 ≠ s)
          socketToPeer := mapDelete s st.socketToPeer }, []) := by
  simp [disconnectSocket, hs, hm]

theorem disconnect_stale_nopeer (s m p : String) (st : VideoState) {peers : PeerMap}
    (hs : mapGet s st.socketToPeer = some (m, p))
    (hm : mapGet m st.activePeers = some peers) (hp : mapHas p peers = false) :
    disconnectSocket s st =
      ({ st with
          connected := st.connected.filter (fun x => x ≠ s)
          rooms := st.rooms.filter (fun e => e.1 ≠ s)
          socketToPeer := mapDelete s st.socketToPeer }, []) := by
  simp [disconnectSocket, hs, hm, hp]

theorem disconnect_removes (s m p : String) (st : VideoState) {peers : PeerMap}
    (hs : mapGet s st.socketToPeer = some (m, p))
    (hm : mapGet m st.activePeers = some peers) (hp : mapHas p peers = true) :
    disconnectSocket s st =
      ({ st with
          connected := st.connected.filter (fun x => x ≠ s)
          rooms := st.rooms.filter (fun e => e.1 ≠ s)
          activePeers := if (mapDelete p peers).length = 0 then mapDelete m st.activePeers
                         else mapSet m (mapDelete p peers) st.activePeers
          socketToPeer := mapDelete s st.socketToPeer },
       [.toRoom m none (.peerDisconnected p)]) := by
  simp [disconnectSocket, hs, hm, hp]

end VideoService

namespace VideoService

/-- C2: when a room's participant map already holds 10 entries, a
`join-video-room` for that room emits the RoomFull error
(`video-error "Meeting full (maximum 10 users)"`) and returns with the
entire state — the room's participant map, the reverse index and the
socket's room membership — unchanged. -/
theorem join_full_rejected_no_mutation (s m p u d : String) (st : VideoState)
    {peers : PeerMap} (hm : mapGet m st.activePeers = some peers)
    (hlen : peers.length = 10) :
    joinVideoRoom s m p u d st =
      (st, [.direct s (.videoError "Meeting full (maximum 10 users)")]) :=
  joinVideoRoom_full s m p u d st (by rw [roomPeers, hm]; simp [hlen])

theorem join_full_rejected_no_mutation_witness :
    mapGet "m1" fullState.activePeers = some tenPeers ∧ tenPeers.length = 10 ∧
    joinVideoRoom "s0" "m1" "pNew" "u77" "Dana" fullState =
      (fullState, [.direct "s0" (.videoError "Meeting full (maximum 10 users)")]) :=
  ⟨by decide, by decide,
   @join_full_rejected_no_mutation "s0" "m1" "pNew" "u77" "Dana" fullState
     tenPeers (by decide) (by decide)⟩

/-- C9: the capacity check runs before the duplicate-peer replacement, so
a join into a full room is rejected with the RoomFull error even when the
joining `peerId` is already one of the 10 entries, and the stale entry is
kept unchanged. -/
theorem join_full_rejects_reconnect (s m p u d : String) (st : VideoState)
    {peers : PeerMap} {q : MeetingPeer} (hm : mapGet m st.activePeers = some peers)
    (hlen : peers.length = 10) (hq : mapGet p peers = some q) :
    joinVideoRoom s m p u d st =
      (st, [.direct s (.videoError "Meeting full (maximum 10 users)")]) ∧
    mapGet p (roomPeers (joinVideoRoom s m p u d st).1 m) = some q := by
  have hfull := joinVideoRoom_full s m p u d st (by rw [roomPeers, hm]; simp [hlen])
  refine ⟨hfull, ?_⟩
  rw [hfull]
  simpa [roomPeers, hm] using hq

theorem join_full_rejects_reconnect_witness :
    mapGet "p0" tenPeers = some ⟨"p0", "sx0", "u0", "N"⟩ ∧
    joinVideoRoom "s0" "m1" "p0" "u77" "Dana" fullState =
      (fullState, [.direct "s0" (.videoError "Meeting full (maximum 10 users)")]) ∧
    mapGet "p0" (roomPeers (joinVideoRoom "s0" "m1" "p0" "u77" "Dana" fullState).1 "m1") =
      some ⟨"p0", "sx0", "u0", "N"⟩ :=
  ⟨by decide,
   (@join_full_rejects_reconnect "s0" "m1" "p0" "u77" "Dana" fullState
     tenPeers ⟨"p0", "sx0", "u0", "N"⟩ (by decide) (by decide) (by decide)).1,
   (@join_full_rejects_reconnect "s0" "m1" "p0" "u77" "Dana" fullState
     tenPeers ⟨"p0", "sx0", "u0", "N"⟩ (by decide) (by decide) (by decide)).2⟩

/-- C3: a successful `join-video-room` with a `peerId` already present in
the room replaces the old entry: afterwards the room holds exactly one
entry for that `peerId`, carrying the new socket id, user id and resolved
display name, and the room's participant count is unchanged. -/
theorem join_duplicate_replaces (s m p u d : String) (st : VideoState)
    {peers : PeerMap} {qold : MeetingPeer}
    (hm : mapGet m st.activePeers = some peers)
    (hnodup : (keys peers).Nodup)
    (hq : mapGet p peers = some qold)
    (hlen : peers.length < 10) :
    mapGet p (roomPeers (joinVideoRoom s m p u d st).1 m) =
        some ⟨p, s, u, safeDisplayName d u⟩ ∧
    countKey p (roomPeers (joinVideoRoom s m p u d st).1 m) = 1 ∧
    (roomPeers (joinVideoRoom s m p u d st).1 m).length = peers.length := by
  have hroom : roomPeers st m = peers := by simp [roomPeers, hm]
  have hlt : (roomPeers st m).length < 10 := by rw [hroom]; exact hlen
  have hpost := roomPeers_join_self s m p u d st hlt
  rw [hroom, if_pos (has_true_of_get_some hq)] at hpost
  have hdel : mapGet p (mapDelete p peers) = none := mapGet_delete_self p peers
  refine ⟨?_, ?_, ?_⟩
  · rw [hpost]
    exact mapGet_set_self p _ _
  · rw [hpost, mapSet_of_get_none _ hdel, countKey_append,
      countKey_eq_zero_of_get_none hdel]
    simp [countKey]
  · rw [hpost, mapSet_of_get_none _ hdel]
    have hd := length_mapDelete_of_nodup hnodup hq
    simp only [List.length_append, List.length_cons, List.length_nil]
    omega

theorem join_duplicate_replaces_witness :
    mapGet "p1" (roomPeers (joinVideoRoom "s3" "m1" "p1" "u9" "Carol" pairState).1 "m1") =
        some ⟨"p1", "s3", "u9", safeDisplayName "Carol" "u9"⟩ ∧
    countKey "p1" (roomPeers (joinVideoRoom "s3" "m1" "p1" "u9" "Carol" pairState).1 "m1") = 1 ∧
    (roomPeers (joinVideoRoom "s3" "m1" "p1" "u9" "Carol" pairState).1 "m1").length = 2 :=
  @join_duplicate_replaces "s3" "m1" "p1" "u9" "Carol" pairState
    [("p1", ⟨"p1", "s1", "u1", "Ann"⟩), ("p2", ⟨"p2", "s2", "u2", "Bob"⟩)]
    ⟨"p1", "s1", "u1", "Ann"⟩ (by decide) (by decide) (by decide) (by decide)

/-- C6 counterexample: on a successful join with an empty (hence
blank-trimming) display name and `userId = "user1234"`, the stored
display name is `"Participante 1234"` — the Spanish prefix — not the
claimed `"Participant "` followed by the uppercased last four characters
of the user id. -/
theorem display_name_prefix_cex :
    mapGet "p1" (roomPeers (joinVideoRoom "s1" "m1" "p1" "user1234" "" initState).1 "m1") =
      some ⟨"p1", "s1", "user1234", "Participante 1234"⟩ ∧
    "Participant " ++ jsUpper (sliceLast4 "user1234") = "Participant 1234" ∧
    ("Participante 1234" : String) ≠ "Participant 1234" ∧
    jsTrim "" = "" :=
  ⟨by decide, by decide, by decide, by decide⟩

/-- C6 amended: for every successful join, the stored display name equals
the trimmed input display name when that trim is non-empty; otherwise it
equals `"Participante "` (not `"Participant "`) followed by the last four
characters of `userId` uppercased, or the fixed placeholder
`"Participante INVIT"` when `userId` is absent (empty). -/
theorem display_name_resolution (s m p u d : String) (st : VideoState)
    (hlen : (roomPeers st m).length < 10) :
    mapGet p (roomPeers (joinVideoRoom s m p u d st).1 m) =
      some ⟨p, s, u,
        if jsTrim d = "" then
          "Participante " ++ (if u = "" then "INVIT" else jsUpper (sliceLast4 u))
        else jsTrim d⟩ := by
  rw [roomPeers_join_self s m p u d st hlen, mapGet_set_self]
  simp [safeDisplayName, fallbackTag]

theorem display_name_resolution_witness :
    mapGet "p1" (roomPeers (joinVideoRoom "s1" "m1" "p1" "" "  Zoe " initState).1 "m1") =
      some ⟨"p1", "s1", "", "Zoe"⟩ := by
  rw [display_name_resolution "s1" "m1" "p1" "" "  Zoe " initState (by decide)]
  decide

end VideoService

namespace VideoService

/-- C5: a `leave-video-room` naming a peer that is not in the named room
(including an unknown room), and a `disconnect` whose connection has no
reverse-index entry (or a stale entry naming an absent room/peer), is a
no-op reporting no removal: no event is emitted and the participant maps
are unchanged.  (There is no exceptional exit: the embedded handlers are
total functions.) -/
theorem leave_disconnect_unknown_noop (st : VideoState) (s m p : String) :
    (mapHas p (roomPeers st m) = false →
      (leaveVideoRoom s m p st).1.activePeers = st.activePeers ∧
      (leaveVideoRoom s m p st).2 = []) ∧
    (mapGet s st.socketToPeer = none →
      (disconnectSocket s st).1.activePeers = st.activePeers ∧
      (disconnectSocket s st).1.socketToPeer = st.socketToPeer ∧
      (disconnectSocket s st).2 = []) ∧
    (∀ m2 p2 : String, mapGet s st.socketToPeer = some (m2, p2) →
      mapHas p2 (roomPeers st m2) = false →
      (disconnectSocket s st).1.activePeers = st.activePeers ∧
      (disconnectSocket s st).2 = []) := by
  refine ⟨?_, ?_, ?_⟩
  · intro hp
    cases hm : mapGet m st.activePeers with
    | none => rw [leave_noroom s m p st hm]; exact ⟨rfl, rfl⟩
    | some peers =>
        have hp2 : mapHas p peers = false := by
          rw [roomPeers, hm] at hp; simpa using hp
        rw [leave_nopeer s m p st hm hp2]; exact ⟨rfl, rfl⟩
  · intro hs
    rw [disconnect_noindex s st hs]; exact ⟨rfl, rfl, rfl⟩
  · intro m2 p2 hs hp
    cases hm : mapGet m2 st.activePeers with
    | none => rw [disconnect_stale_noroom s m2 p2 st hs hm]; exact ⟨rfl, rfl⟩
    | some peers =>
        have hp2 : mapHas p2 peers = false := by
          rw [roomPeers, hm] at hp; simpa using hp
        rw [disconnect_stale_nopeer s m2 p2 st hs hm hp2]; exact ⟨rfl, rfl⟩

theorem leave_disconnect_unknown_noop_witness :
    ((leaveVideoRoom "s1" "m1" "nope" pairState).1.activePeers = pairState.activePeers ∧
     (leaveVideoRoom "s1" "m1" "nope" pairState).2 = []) ∧
    ((disconnectSocket "ghost" pairState).1.activePeers = pairState.activePeers ∧
     (disconnectSocket "ghost" pairState).1.socketToPeer = pairState.socketToPeer ∧
     (disconnectSocket "ghost" pairState).2 = []) :=
  ⟨(leave_disconnect_unknown_noop pairState "s1" "m1" "nope").1 (by decide),
   (leave_disconnect_unknown_noop pairState "ghost" "m1" "nope").2.1 (by decide)⟩

/-- C10: every `leave-video-room` deletes the calling connection's
reverse-index entry unconditionally; when the supplied meeting/peer pair
differs from the pair the connection is indexed under, the caller's own
Participant record survives in the registry while its index entry is
gone. -/
theorem leave_strips_index_unconditionally (st : VideoState) (s m p : String) :
    mapGet s (leaveVideoRoom s m p st).1.socketToPeer = none ∧
    (∀ m0 p0 : String, ∀ q : MeetingPeer,
      mapGet s st.socketToPeer = some (m0, p0) → (m0, p0) ≠ (m, p) →
      mapGet p0 (roomPeers st m0) = some q →
      mapGet p0 (roomPeers (leaveVideoRoom s m p st).1 m0) = some q) := by
  constructor
  · cases hm : mapGet m st.activePeers with
    | none => rw [leave_noroom s m p st hm]; exact mapGet_delete_self s _
    | some peers =>
        cases hp : mapHas p peers with
        | false => rw [leave_nopeer s m p st hm hp]; exact mapGet_delete_self s _
        | true => rw [leave_removes s m p st hm hp]; exact mapGet_delete_self s _
  · intro m0 p0 q hs hne hq
    cases hm : mapGet m st.activePeers with
    | none => rw [leave_noroom s m p st hm]; exact hq
    | some peers =>
        cases hp : mapHas p peers with
        | false => rw [leave_nopeer s m p st hm hp]; exact hq
        | true =>
            rw [leave_removes s m p st hm hp]
            by_cases hm0 : m0 = m
            · subst hm0
              have hp0 : p0 ≠ p := by
                intro hcon
                exact hne (by rw [hcon])
              have hq2 : mapGet p0 peers = some q := by
                rw [roomPeers, hm] at hq; simpa using hq
              have hq3 : mapGet p0 (mapDelete p peers) = some q := by
                rw [mapGet_delete_ne hp0]; exact hq2
              have hnz : ¬ (mapDelete p peers).length = 0 := by
                intro hz
                rw [List.length_eq_zero] at hz
                rw [hz] at hq3
                simp [mapGet] at hq3
              rw [roomPeers]
              simp only [if_neg hnz]
              rw [mapGet_set_self]
              simpa using hq3
            · rw [roomPeers]
              simp only
              by_cases hz : (mapDelete p peers).length = 0
              · rw [if_pos hz, mapGet_delete_ne hm0]
                rw [roomPeers] at hq
                exact hq
              · rw [if_neg hz, mapGet_set_ne hm0]
                rw [roomPeers] at hq
                exact hq

theorem leave_strips_index_unconditionally_witness :
    mapGet "s1" (leaveVideoRoom "s1" "m2" "p1" pairState).1.socketToPeer = none ∧
    mapGet "p1" (roomPeers (leaveVideoRoom "s1" "m2" "p1" pairState).1 "m1") =
      some ⟨"p1", "s1", "u1", "Ann"⟩ :=
  ⟨(leave_strips_index_unconditionally pairState "s1" "m2" "p1").1,
   (leave_strips_index_unconditionally pairState "s1" "m2" "p1").2 "m1" "p1"
     ⟨"p1", "s1", "u1", "Ann"⟩ (by decide) (by decide) (by decide)⟩

/-- C7 counterexample: the relayed signaling event never carries the
sender's peer identifier, even when it is resolvable through the index.
Two states in which the sender's indexed peer id differs (`"p1"` versus
`"pZ"`) produce identical emissions, so the delivered message cannot
contain the sender's peer identifier, contradicting the claim that it is
delivered when resolvable. -/
theorem relay_no_sender_peer_id_cex :
    mapGet "s1" pairState.socketToPeer = some ("m1", "p1") ∧
    mapGet "s1" pairStateIdx.socketToPeer = some ("m1", "pZ") ∧
    ("p1" : String) ≠ "pZ" ∧
    (webrtcOffer "s1" "s2" "sdp" pairState).2 = (webrtcOffer "s1" "s2" "sdp" pairStateIdx).2 ∧
    (webrtcOffer "s1" "s2" "sdp" pairState).2 =
      [.toRoom "s2" none (.webrtcOffer "s1" "sdp")] :=
  ⟨by decide, by decide, by decide, rfl, rfl⟩

/-- C7 amended: each signaling handler (`webrtc-offer`, `webrtc-answer`,
`ice-candidate`) forwards the payload unchanged together with the
sender's connection identifier only (never the sender's peer identifier),
mutates no state, and — provided no socket has joined a room named after
the target — the emission reaches exactly the target connection when it
is connected and no connection otherwise. -/
theorem relay_addressed_delivery (st : VideoState) (s t pl : String)
    (hroom : ∀ e ∈ st.rooms, e.2 ≠ t) :
    (webrtcOffer s t pl st).1 = st ∧
    (webrtcOffer s t pl st).2 = [.toRoom t none (.webrtcOffer s pl)] ∧
    (webrtcAnswer s t pl st).1 = st ∧
    (webrtcAnswer s t pl st).2 = [.toRoom t none (.webrtcAnswer s pl)] ∧
    (iceCandidate s t pl st).1 = st ∧
    (iceCandidate s t pl st).2 = [.toRoom t none (.iceCandidate s pl)] ∧
    (∀ pl2 : Payload, ∀ x : String,
      delivers st (.toRoom t none pl2) x = true ↔
        (x = t ∧ st.connected.contains t = true)) := by
  refine ⟨rfl, rfl, rfl, rfl, rfl, rfl, ?_⟩
  intro pl2 x
  have hcont : st.rooms.contains (x, t) = false := by
    cases hc : st.rooms.contains (x, t) with
    | false => rfl
    | true =>
        have hmem : (x, t) ∈ st.rooms := by simpa using hc
        exact absurd rfl (hroom (x, t) hmem)
  constructor
  · intro hd
    simp only [delivers, inRoom, hcont, Bool.or_false, Bool.and_eq_true] at hd
    obtain ⟨hx, ht, _⟩ := hd
    have hxt : x = t := by simpa using ht
    subst hxt
    exact ⟨rfl, hx⟩
  · rintro ⟨hx, ht⟩
    subst hx
    have htm : x ∈ st.connected := by simpa using ht
    simp [delivers, inRoom, htm]

theorem relay_addressed_delivery_witness :
    (webrtcOffer "s1" "sGone" "sdp" pairState).1 = pairState ∧
    (webrtcOffer "s1" "sGone" "sdp" pairState).2 =
      [.toRoom "sGone" none (.webrtcOffer "s1" "sdp")] ∧
    (delivers pairState (.toRoom "sGone" none (.webrtcOffer "s1" "sdp")) "s2" = true ↔
      ("s2" = "sGone" ∧ pairState.connected.contains "sGone" = true)) :=
  ⟨(relay_addressed_delivery pairState "s1" "sGone" "sdp" (by decide)).1,
   (relay_addressed_delivery pairState "s1" "sGone" "sdp" (by decide)).2.1,
   (relay_addressed_delivery pairState "s1" "sGone" "sdp" (by decide)).2.2.2.2.2.2
     (.webrtcOffer "s1" "sdp") "s2"⟩

/-- C8 counterexample: the removal notification emitted by
`leave-video-room` carries the removed peer identifier but not the
resulting roster: two states whose post-removal rosters differ produce
the identical emission `peer-disconnected "p1"`, so the notification
cannot carry the roster, contradicting the claim that remaining members
receive the resulting roster. -/
theorem removal_notice_no_roster_cex :
    (leaveVideoRoom "s1" "m1" "p1" pairState).2 =
      [.toRoom "m1" none (.peerDisconnected "p1")] ∧
    (leaveVideoRoom "s1" "m1" "p1" pairStateAlt).2 =
      (leaveVideoRoom "s1" "m1" "p1" pairState).2 ∧
    roomPeers (leaveVideoRoom "s1" "m1" "p1" pairState).1 "m1" ≠
      roomPeers (leaveVideoRoom "s1" "m1" "p1" pairStateAlt).1 "m1" :=
  ⟨by decide, by decide, by decide⟩

/-- C8 amended: every leave or disconnect that removes a Participant
emits exactly one `peer-disconnected` notification to the room, carrying
the removed peer identifier (the resulting roster is not part of the
notification), and that emission reaches every remaining connected
member of the room. -/
theorem removal_notifies_room_with_peer_id (st : VideoState) (s m p : String) :
    (∀ peers : PeerMap, mapGet m st.activePeers = some peers → mapHas p peers = true →
      (leaveVideoRoom s m p st).2 = [.toRoom m none (.peerDisconnected p)] ∧
      (∀ x : String, (leaveVideoRoom s m p st).1.connected.contains x = true →
        (leaveVideoRoom s m p st).1.rooms.contains (x, m) = true →
        delivers (leaveVideoRoom s m p st).1 (.toRoom m none (.peerDisconnected p)) x = true)) ∧
    (∀ m2 p2 : String, ∀ peers : PeerMap, mapGet s st.socketToPeer = some (m2, p2) →
      mapGet m2 st.activePeers = some peers → mapHas p2 peers = true →
      (disconnectSocket s st).2 = [.toRoom m2 none (.peerDisconnected p2)] ∧
      (∀ x : String, (disconnectSocket s st).1.connected.contains x = true →
        (disconnectSocket s st).1.rooms.contains (x, m2) = true →
        delivers (disconnectSocket s st).1 (.toRoom m2 none (.peerDisconnected p2)) x = true)) := by
  constructor
  · intro peers hm hp
    rw [leave_removes s m p st hm hp]
    refine ⟨rfl, ?_⟩
    intro x hx hr
    simp at hx hr
    simp [delivers, inRoom]
    exact ⟨hx, Or.inr hr⟩
  · intro m2 p2 peers hs hm hp
    rw [disconnect_removes s m2 p2 st hs hm hp]
    refine ⟨rfl, ?_⟩
    intro x hx hr
    simp at hx hr
    simp [delivers, inRoom]
    exact ⟨hx, Or.inr hr⟩

theorem removal_notifies_room_with_peer_id_witness :
    (leaveVideoRoom "s1" "m1" "p1" pairState).2 =
      [.toRoom "m1" none (.peerDisconnected "p1")] ∧
    delivers (leaveVideoRoom "s1" "m1" "p1" pairState).1
      (.toRoom "m1" none (.peerDisconnected "p1")) "s2" = true :=
  ⟨((removal_notifies_room_with_peer_id pairState "s1" "m1" "p1").1
      [("p1", ⟨"p1", "s1", "u1", "Ann"⟩), ("p2", ⟨"p2", "s2", "u2", "Bob"⟩)]
      (by decide) (by decide)).1,
   ((removal_notifies_room_with_peer_id pairState "s1" "m1" "p1").1
      [("p1", ⟨"p1", "s1", "u1", "Ann"⟩), ("p2", ⟨"p2", "s2", "u2", "Bob"⟩)]
      (by decide) (by decide)).2 "s2" (by decide) (by decide)⟩

end VideoService

namespace VideoService

theorem roomsNonempty_applyOp (st : VideoState) (op : Op)
    (h : ∀ m2 peers, mapGet m2 st.activePeers = some peers → peers ≠ []) :
    ∀ m2 peers, mapGet m2 (applyOp st op).activePeers = some peers → peers ≠ [] := by
  cases op with
  | connect s =>
      by_cases hc : st.connected.contains s
      · simp only [applyOp, if_pos hc]
        exact h
      · simp only [applyOp, if_neg hc]
        exact h
  | join s m p u d =>
      by_cases hc : st.connected.contains s
      · simp only [applyOp, hc, if_true]
        by_cases hfull : 10 ≤ (roomPeers st m).length
        · rw [joinVideoRoom_full s m p u d st hfull]
          exact h
        · rw [join_state_of_lt s m p u d st (by omega)]
          intro m2 peers hget
          simp only at hget
          by_cases hm2 : m2 = m
          · subst hm2
            rw [mapGet_set_self] at hget
            injection hget with heq
            exact fun hnil => mapSet_ne_nil p _ _ (heq.trans hnil)
          · rw [mapGet_set_ne hm2] at hget
            by_cases hh : mapHas m st.activePeers
            · rw [if_pos hh] at hget
              exact h m2 peers hget
            · rw [if_neg hh, mapGet_set_ne hm2] at hget
              exact h m2 peers hget
      · simp only [applyOp, if_neg hc]
        exact h
  | leave s m p =>
      by_cases hc : st.connected.contains s
      · simp only [applyOp, hc, if_true]
        cases hm : mapGet m st.activePeers with
        | none =>
            rw [leave_noroom s m p st hm]
            exact h
        | some peers0 =>
            cases hp : mapHas p peers0 with
            | false =>
                rw [leave_nopeer s m p st hm hp]
                exact h
            | true =>
                rw [leave_removes s m p st hm hp]
                intro m2 peers hget
                simp only at hget
                by_cases hz : (mapDelete p peers0).length = 0
                · rw [if_pos hz] at hget
                  by_cases hm2 : m2 = m
                  · subst hm2
                    rw [mapGet_delete_self] at hget
                    cases hget
                  · rw [mapGet_delete_ne hm2] at hget
                    exact h m2 peers hget
                · rw [if_neg hz] at hget
                  by_cases hm2 : m2 = m
                  · subst hm2
                    rw [mapGet_set_self] at hget
                    injection hget with heq
                    intro hnil
                    exact hz (by rw [heq, hnil]; rfl)
                  · rw [mapGet_set_ne hm2] at hget
                    exact h m2 peers hget
      · simp only [applyOp, if_neg hc]
        exact h
  | disconnect s =>
      by_cases hc : st.connected.contains s
      · simp only [applyOp, hc, if_true]
        cases hs : mapGet s st.socketToPeer with
        | none =>
            rw [disconnect_noindex s st hs]
            exact h
        | some mp =>
            obtain ⟨m0, p0⟩ := mp
            cases hm : mapGet m0 st.activePeers with
            | none =>
                rw [disconnect_stale_noroom s m0 p0 st hs hm]
                exact h
            | some peers0 =>
                cases hp : mapHas p0 peers0 with
                | false =>
                    rw [disconnect_stale_nopeer s m0 p0 st hs hm hp]
                    exact h
                | true =>
                    rw [disconnect_removes s m0 p0 st hs hm hp]
                    intro m2 peers hget
                    simp only at hget
                    by_cases hz : (mapDelete p0 peers0).length = 0
                    · rw [if_pos hz] at hget
                      by_cases hm2 : m2 = m0
                      · subst hm2
                        rw [mapGet_delete_self] at hget
                        cases hget
                      · rw [mapGet_delete_ne hm2] at hget
                        exact h m2 peers hget
                    · rw [if_neg hz] at hget
                      by_cases hm2 : m2 = m0
                      · subst hm2
                        rw [mapGet_set_self] at hget
                        injection hget with heq
                        intro hnil
                        exact hz (by rw [heq, hnil]; rfl)
                      · rw [mapGet_set_ne hm2] at hget
                        exact h m2 peers hget
      · simp only [applyOp, if_neg hc]
        exact h

theorem roomsNonempty_foldl (l : List Op) (st : VideoState)
    (h : ∀ m2 peers, mapGet m2 st.activePeers = some peers → peers ≠ []) :
    ∀ m2 peers, mapGet m2 (l.foldl applyOp st).activePeers = some peers → peers ≠ [] := by
  induction l generalizing st with
  | nil => exact h
  | cons op rest ih =>
      intro m2 peers hget
      exact ih (applyOp st op) (roomsNonempty_applyOp st op h) m2 peers hget

/-- C4: after any sequence of operations from the empty initial state, a
meeting id is a key of the registry if and only if its participant map is
non-empty — a room is created by the first successful join and removed
the moment its last participant is, so an empty room is never
registered. -/
theorem registry_key_iff_nonempty (ops : List Op) (m : String) :
    mapHas m (runOps ops).activePeers = true ↔ roomPeers (runOps ops) m ≠ [] := by
  have hinv : ∀ m2 peers, mapGet m2 (runOps ops).activePeers = some peers → peers ≠ [] :=
    roomsNonempty_foldl ops initState (by intro m2 peers hg; simp [initState, mapGet] at hg)
  constructor
  · intro hhas
    cases hg : mapGet m (runOps ops).activePeers with
    | none => rw [mapHas, hg] at hhas; simp at hhas
    | some peers =>
        rw [roomPeers, hg]
        simpa using hinv m peers hg
  · intro hne
    cases hg : mapGet m (runOps ops).activePeers with
    | none =>
        rw [roomPeers, hg] at hne
        simp at hne
    | some peers => simp [mapHas, hg]

end VideoService

namespace VideoService

theorem strongConsistent_initState : strongConsistent initState := by
  constructor
  · intro s m p hget
    simp [initState, mapGet] at hget
  · intro m peers p q hget
    simp [initState, mapGet] at hget

theorem strongConsistent_removal (st : VideoState) (s m p : String)
    (peers0 : PeerMap)
    (hip : indexToPeer st) (hpi : peerToIndex st)
    (hs : mapGet s st.socketToPeer = some (m, p))
    (hm : mapGet m st.activePeers = some peers0)
    (st2 : VideoState)
    (hap : st2.activePeers =
      if (mapDelete p peers0).length = 0 then mapDelete m st.activePeers
      else mapSet m (mapDelete p peers0) st.activePeers)
    (hstp : st2.socketToPeer = mapDelete s st.socketToPeer) :
    strongConsistent st2 := by
  obtain ⟨q, hq, hqs⟩ := hip s m p hs
  have hq0 : mapGet p peers0 = some q := by
    rw [roomPeers, hm] at hq
    simpa using hq
  constructor
  · intro s2 m2 p2 hget
    rw [hstp] at hget
    by_cases hs2 : s2 = s
    · subst hs2
      rw [mapGet_delete_self] at hget
      cases hget
    · rw [mapGet_delete_ne hs2] at hget
      obtain ⟨q2, hq2, hq2s⟩ := hip s2 m2 p2 hget
      refine ⟨q2, ?_, hq2s⟩
      rw [roomPeers, hap]
      by_cases hm2 : m2 = m
      · subst hm2
        have hp2 : p2 ≠ p := by
          intro hcon
          subst hcon
          rw [hq] at hq2
          injection hq2 with he
          exact hs2 (by rw [← hq2s, ← he]; exact hqs)
        have hq2d : mapGet p2 (mapDelete p peers0) = some q2 := by
          rw [mapGet_delete_ne hp2]
          rw [roomPeers, hm] at hq2
          simpa using hq2
        by_cases hz : (mapDelete p peers0).length = 0
        · exfalso
          rw [List.length_eq_zero] at hz
          rw [hz] at hq2d
          simp [mapGet] at hq2d
        · rw [if_neg hz, mapGet_set_self]
          simpa using hq2d
      · by_cases hz : (mapDelete p peers0).length = 0
        · rw [if_pos hz, mapGet_delete_ne hm2]
          rw [roomPeers] at hq2
          exact hq2
        · rw [if_neg hz, mapGet_set_ne hm2]
          rw [roomPeers] at hq2
          exact hq2
  · intro m2 peers2 p2 q2 hm2get hp2get
    rw [hap] at hm2get
    rw [hstp]
    by_cases hz : (mapDelete p peers0).length = 0
    · rw [if_pos hz] at hm2get
      by_cases hm2 : m2 = m
      · subst hm2
        rw [mapGet_delete_self] at hm2get
        cases hm2get
      · rw [mapGet_delete_ne hm2] at hm2get
        have h0 := hpi m2 peers2 p2 q2 hm2get hp2get
        by_cases hq2s : q2.socketId = s
        · exfalso
          rw [hq2s, hs] at h0
          injection h0 with he
          rw [Prod.mk.injEq] at he
          exact hm2 he.1.symm
        · rw [mapGet_delete_ne hq2s]
          exact h0
    · rw [if_neg hz] at hm2get
      by_cases hm2 : m2 = m
      · subst hm2
        rw [mapGet_set_self] at hm2get
        injection hm2get with he
        subst he
        have hp2 : p2 ≠ p := by
          intro hcon
          subst hcon
          rw [mapGet_delete_self] at hp2get
          cases hp2get
        rw [mapGet_delete_ne hp2] at hp2get
        have h0 := hpi _ peers0 p2 q2 hm hp2get
        by_cases hq2s : q2.socketId = s
        · exfalso
          rw [hq2s, hs] at h0
          injection h0 with he2
          rw [Prod.mk.injEq] at he2
          exact hp2 he2.2.symm
        · rw [mapGet_delete_ne hq2s]
          exact h0
      · rw [mapGet_set_ne hm2] at hm2get
        have h0 := hpi m2 peers2 p2 q2 hm2get hp2get
        by_cases hq2s : q2.socketId = s
        · exfalso
          rw [hq2s, hs] at h0
          injection h0 with he
          rw [Prod.mk.injEq] at he
          exact hm2 he.1.symm
        · rw [mapGet_delete_ne hq2s]
          exact h0

end VideoService

namespace VideoService

theorem strongConsistent_join (st : VideoState) (s m p u d : String)
    (hok : okOpB st (.join s m p u d) = true)
    (h : strongConsistent st) :
    strongConsistent (joinVideoRoom s m p u d st).1 := by
  obtain ⟨hip, hpi⟩ := h
  simp only [okOpB, Bool.and_eq_true] at hok
  obtain ⟨hok1, hok2⟩ := hok
  by_cases hfull : 10 ≤ (roomPeers st m).length
  · rw [joinVideoRoom_full s m p u d st hfull]
    exact ⟨hip, hpi⟩
  · have hlt : (roomPeers st m).length < 10 := Nat.lt_of_not_le hfull
    constructor
    · intro s2 m2 p2 hget
      rw [socketToPeer_join s m p u d st hlt] at hget
      by_cases hs2 : s2 = s
      · rw [hs2, mapGet_set_self] at hget
        injection hget with he
        rw [Prod.mk.injEq] at he
        refine ⟨⟨p, s, u, safeDisplayName d u⟩, ?_, hs2.symm⟩
        rw [← he.1, ← he.2]
        rw [roomPeers_join_self s m p u d st hlt, mapGet_set_self]
      · rw [mapGet_set_ne hs2] at hget
        obtain ⟨q2, hq2, hq2s⟩ := hip s2 m2 p2 hget
        by_cases hm2 : m2 = m
        · by_cases hp2 : p2 = p
          · exfalso
            rw [hm2, hp2] at hq2
            rw [hq2] at hok2
            have hq2ss : q2.socketId = s := of_decide_eq_true hok2
            exact hs2 (by rw [← hq2s, hq2ss])
          · refine ⟨q2, ?_, hq2s⟩
            rw [hm2] at hq2 ⊢
            rw [roomPeers_join_self s m p u d st hlt, mapGet_set_ne hp2]
            by_cases hhp : mapHas p (roomPeers st m)
            · rw [if_pos hhp, mapGet_delete_ne hp2]
              exact hq2
            · rw [if_neg hhp]
              exact hq2
        · refine ⟨q2, ?_, hq2s⟩
          rw [roomPeers, get_activePeers_join_ne s m p u d st hlt hm2]
          rw [roomPeers] at hq2
          exact hq2
    · intro m2 peers2 p2 q2 hm2get hp2get
      rw [socketToPeer_join s m p u d st hlt]
      by_cases hm2 : m2 = m
      · rw [hm2] at hm2get
        have hroom := roomPeers_join_self s m p u d st hlt
        rw [roomPeers, hm2get] at hroom
        simp only [Option.getD_some] at hroom
        rw [hroom] at hp2get
        by_cases hp2 : p2 = p
        · rw [hp2, mapGet_set_self] at hp2get
          injection hp2get with he
          rw [← he, hm2, hp2]
          exact mapGet_set_self s _ _
        · rw [mapGet_set_ne hp2] at hp2get
          have hq2pre : mapGet p2 (roomPeers st m) = some q2 := by
            by_cases hhp : mapHas p (roomPeers st m)
            · rw [if_pos hhp, mapGet_delete_ne hp2] at hp2get
              exact hp2get
            · rw [if_neg hhp] at hp2get
              exact hp2get
          cases hm0 : mapGet m st.activePeers with
          | none =>
              exfalso
              rw [roomPeers, hm0] at hq2pre
              simp [mapGet] at hq2pre
          | some peers0 =>
              have hq0 : mapGet p2 peers0 = some q2 := by
                rw [roomPeers, hm0] at hq2pre
                simpa using hq2pre
              have h0 := hpi m peers0 p2 q2 hm0 hq0
              by_cases hq2s : q2.socketId = s
              · exfalso
                rw [hq2s] at h0
                rw [h0] at hok1
                have he : (m, p2) = (m, p) := of_decide_eq_true hok1
                rw [Prod.mk.injEq] at he
                exact hp2 he.2
              · rw [mapGet_set_ne hq2s, hm2]
                exact h0
      · rw [get_activePeers_join_ne s m p u d st hlt hm2] at hm2get
        have h0 := hpi m2 peers2 p2 q2 hm2get hp2get
        by_cases hq2s : q2.socketId = s
        · exfalso
          rw [hq2s] at h0
          rw [h0] at hok1
          have he : (m2, p2) = (m, p) := of_decide_eq_true hok1
          rw [Prod.mk.injEq] at he
          exact hm2 he.1
        · rw [mapGet_set_ne hq2s]
          exact h0

theorem strongConsistent_applyOp (st : VideoState) (op : Op)
    (hok : okOpB st op = true) (h : strongConsistent st) :
    strongConsistent (applyOp st op) := by
  obtain ⟨hip, hpi⟩ := h
  cases op with
  | connect s =>
      by_cases hc : st.connected.contains s
      · simp only [applyOp, if_pos hc]
        exact ⟨hip, hpi⟩
      · simp only [applyOp, if_neg hc]
        exact ⟨hip, hpi⟩
  | join s m p u d =>
      by_cases hc : st.connected.contains s
      · simp only [applyOp, if_pos hc]
        exact strongConsistent_join st s m p u d hok ⟨hip, hpi⟩
      · simp only [applyOp, if_neg hc]
        exact ⟨hip, hpi⟩
  | leave s m p =>
      by_cases hc : st.connected.contains s
      · simp only [applyOp, if_pos hc]
        simp only [okOpB] at hok
        cases hs : mapGet s st.socketToPeer with
        | some mp =>
            rw [hs] at hok
            obtain ⟨m0, p0⟩ := mp
            have hmp : (m0, p0) = (m, p) := of_decide_eq_true hok
            rw [Prod.mk.injEq] at hmp
            rw [hmp.1, hmp.2] at hs
            obtain ⟨q, hq, hqs⟩ := hip s m p hs
            cases hm : mapGet m st.activePeers with
            | none =>
                exfalso
                rw [roomPeers, hm] at hq
                simp [mapGet] at hq
            | some peers0 =>
                have hq0 : mapGet p peers0 = some q := by
                  rw [roomPeers, hm] at hq
                  simpa using hq
                rw [leave_removes s m p st hm (has_true_of_get_some hq0)]
                exact strongConsistent_removal st s m p peers0 hip hpi hs hm _ rfl rfl
        | none =>
            rw [hs] at hok
            have hnp : mapHas p (roomPeers st m) = false := by simpa using hok
            cases hm : mapGet m st.activePeers with
            | none =>
                rw [leave_noroom s m p st hm, mapDelete_of_get_none hs]
                exact ⟨hip, hpi⟩
            | some peers0 =>
                have hp0 : mapHas p peers0 = false := by
                  rw [roomPeers, hm] at hnp
                  simpa using hnp
                rw [leave_nopeer s m p st hm hp0, mapDelete_of_get_none hs]
                exact ⟨hip, hpi⟩
      · simp only [applyOp, if_neg hc]
        exact ⟨hip, hpi⟩
  | disconnect s =>
      by_cases hc : st.connected.contains s
      · simp only [applyOp, if_pos hc]
        cases hs : mapGet s st.socketToPeer with
        | none =>
            rw [disconnect_noindex s st hs]
            exact ⟨hip, hpi⟩
        | some mp =>
            obtain ⟨m0, p0⟩ := mp
            obtain ⟨q, hq, hqs⟩ := hip s m0 p0 hs
            cases hm : mapGet m0 st.activePeers with
            | none =>
                exfalso
                rw [roomPeers, hm] at hq
                simp [mapGet] at hq
            | some peers0 =>
                have hq0 : mapGet p0 peers0 = some q := by
                  rw [roomPeers, hm] at hq
                  simpa using hq
                rw [disconnect_removes s m0 p0 st hs hm (has_true_of_get_some hq0)]
                exact strongConsistent_removal st s m0 p0 peers0 hip hpi hs hm _ rfl rfl
      · simp only [applyOp, if_neg hc]
        exact ⟨hip, hpi⟩

end VideoService

namespace VideoService

theorem strongConsistent_foldl (l : List Op) :
    ∀ st : VideoState, okTraceB st l = true → strongConsistent st →
      strongConsistent (l.foldl applyOp st) := by
  induction l with
  | nil =>
      intro st _ h
      exact h
  | cons op rest ih =>
      intro st hok h
      simp only [okTraceB, Bool.and_eq_true] at hok
      exact ih (applyOp st op) hok.2 (strongConsistent_applyOp st op hok.1 h)

/-- C1 counterexample: the claimed mutual consistency of `socketToPeer`
and `activePeers` fails for the operation sequence connect `s1`, join
`(m1, p1)`, then a `leave-video-room` naming the wrong meeting `m2`: the
leave handler deletes `s1`'s index entry unconditionally while the
Participant of `s1` stays in room `m1` with its socket still connected,
so a connected Participant has no matching index entry. -/
theorem index_participant_consistency_cex :
    mapGet "p1" (roomPeers (runOps [.connect "s1", .join "s1" "m1" "p1" "u1" "Ann",
        .leave "s1" "m2" "p1"]) "m1") = some ⟨"p1", "s1", "u1", "Ann"⟩ ∧
    (runOps [.connect "s1", .join "s1" "m1" "p1" "u1" "Ann",
        .leave "s1" "m2" "p1"]).connected.contains "s1" = true ∧
    mapGet "s1" (runOps [.connect "s1", .join "s1" "m1" "p1" "u1" "Ann",
        .leave "s1" "m2" "p1"]).socketToPeer = none ∧
    ¬ consistent (runOps [.connect "s1", .join "s1" "m1" "p1" "u1" "Ann",
        .leave "s1" "m2" "p1"]) := by
  refine ⟨by decide, by decide, by decide, ?_⟩
  intro h
  have h2 := h.2 "m1" [("p1", ⟨"p1", "s1", "u1", "Ann"⟩)] "p1"
    ⟨"p1", "s1", "u1", "Ann"⟩ (by decide) (by decide) (by decide)
  exact absurd h2 (by decide)

/-- C1 amended: the mutual consistency of the reverse index and the
participant maps holds for every well-matched trace (`okTraceB`): each
join comes from a connection that is unindexed or indexed exactly as the
pair it joins, with a `peerId` not currently held by a different
connection, and each leave names exactly the pair its connection is
indexed under (or names an absent peer while unindexed).  Outside these
traces the two structures can diverge, as the counterexample shows. -/
theorem index_participant_consistency (ops : List Op)
    (hok : okTraceB initState ops = true) : consistent (runOps ops) := by
  have h2 := strongConsistent_foldl ops initState hok strongConsistent_initState
  exact ⟨h2.1, fun m peers p q hg1 hg2 _ => h2.2 m peers p q hg1 hg2⟩

theorem index_participant_consistency_witness :
    okTraceB initState [.connect "s1", .join "s1" "m1" "p1" "u1" "Ann",
      .connect "s2", .join "s2" "m1" "p2" "u2" "Bob",
      .leave "s1" "m1" "p1", .disconnect "s2"] = true ∧
    consistent (runOps [.connect "s1", .join "s1" "m1" "p1" "u1" "Ann",
      .connect "s2", .join "s2" "m1" "p2" "u2" "Bob",
      .leave "s1" "m1" "p1", .disconnect "s2"]) :=
  ⟨by decide,
   index_participant_consistency
     [.connect "s1", .join "s1" "m1" "p1" "u1" "Ann",
      .connect "s2", .join "s2" "m1" "p2" "u2" "Bob",
      .leave "s1" "m1" "p1", .disconnect "s2"] (by decide)⟩

end VideoService
